import Mathlib

/-!
Verification of the Fantasy2025 cup core: round-robin fixture generation
(`gen_cup_schedule.py`), standings computation with tiebreaks, the schedule
view, and the live/historical data merge (`app.py`).

The Python functions are embedded shallowly as executable Lean definitions.
Python `dict`s keyed by team name are modelled as association lists or total
functions with the `.get(..., default)` semantics of the source; the
current-week oracle `get_current_week_info()` (a file read) is modelled as an
explicit `(current_week, deadline_passed)` pair of parameters, and the
`weeks.csv` read `get_team_total_hits_from_csv` as an explicit function
parameter `hits_data`.  Python exceptions (`KeyError`) are modelled with
`Except`.
-/

/-! ## Embedding of gen_cup_schedule.py -/

/-- Python slicing rotation `l[r:] + l[:r]` used in
`generate_round_robin_schedule`. -/
def rotateSlice {α : Type} (l : List α) (r : Nat) : List α :=
  l.drop r ++ l.take r

/-- The in-place BYE padding at the top of `generate_round_robin_schedule`:
`if len(teams) % 2 != 0: teams.append("BYE")`.  The function mutates the
caller's list; this definition is the value of that list after the call. -/
def padTeams (teams : List String) : List String :=
  if teams.length % 2 ≠ 0 then teams ++ ["BYE"] else teams

/-- One pairing of a round, before BYE filtering: slot `0` pairs the fixed
team `teams[0]` with the last entry of the rotated list
(`rotated_teams[-1]`); slot `i ≥ 1` pairs `rotated_teams[i-1]` with
`rotated_teams[-(i+1)]`. -/
def slotMatch (teams : List String) (r i : Nat) : String × String :=
  let rot := rotateSlice (teams.drop 1) r
  if i = 0 then (teams.getD 0 "", rot.getD (rot.length - 1) "")
  else (rot.getD (i - 1) "", rot.getD (rot.length - (i + 1)) "")

/-- All pairings of round `r` before the BYE filter
(the loop `for i in range(matches_per_round)`). -/
def buildRoundRaw (teams : List String) (r : Nat) : List (String × String) :=
  (List.range (teams.length / 2)).map (slotMatch teams r)

/-- The filter `if team1 != "BYE" and team2 != "BYE"`. -/
def notBye (p : String × String) : Bool :=
  p.1 != "BYE" && p.2 != "BYE"

/-- One round of the generated schedule (`round_matches`). -/
def buildRound (teams : List String) (r : Nat) : List (String × String) :=
  (buildRoundRaw teams r).filter notBye

/-- Embedding of `generate_round_robin_schedule`, together with the value of the caller's
(mutated) team list after the call.  The first component models the in-place
`teams.append("BYE")` frame effect, the second is the returned schedule. -/
def generate_round_robin_schedule_full (teams : List String) :
    List String × List (List (String × String)) :=
  let padded := padTeams teams
  (padded, (List.range (padded.length - 1)).map (buildRound padded))

/-- The return value of `generate_round_robin_schedule`. -/
def generate_round_robin_schedule (teams : List String) :
    List (List (String × String)) :=
  (generate_round_robin_schedule_full teams).2

/-- Number of fixtures of the whole schedule that pair `a` with `b`
(in either orientation). -/
def pairCount (schedule : List (List (String × String))) (a b : String) : Nat :=
  schedule.flatten.countP fun p => (p.1 == a && p.2 == b) || (p.1 == b && p.2 == a)

/-- The opponents team `a` meets across the whole schedule (with multiplicity). -/
def opponentsOf (schedule : List (List (String × String))) (a : String) :
    List String :=
  schedule.flatten.filterMap fun p =>
    if p.1 = a then some p.2 else if p.2 = a then some p.1 else none

/-- The unordered pair of the two sides of a fixture, used to count each
pairing irrespective of orientation. -/
def toPairSet (p : String × String) : Finset String :=
  {p.1, p.2}

/-- The unordered pairs of every slot of every round of the schedule over
`t0 :: D`, before BYE filtering, round-major. -/
def rawPairList (t0 : String) (D : List String) : List (Finset String) :=
  ((List.range D.length).map fun r =>
    (List.range ((D.length + 1) / 2)).map fun i =>
      toPairSet (slotMatch (t0 :: D) r i)).flatten

/-- The canonical pairing `tuple(sorted([team1, team2]))` of `validate_round_robin_schedule`. -/
def canonPair (a b : String) : String × String :=
  if a ≤ b then (a, b) else (b, a)

/-- Python `set.add` on a set modelled as a duplicate-free list. -/
def setAdd (l : List String) (x : String) : List String :=
  if x ∈ l then l else l ++ [x]

/-- Lookup in the `team_opponents` dict; `none` models a `KeyError`. -/
def assocGet (l : List (String × List String)) (k : String) :
    Option (List String) :=
  (l.find? fun p => p.1 == k).map (·.2)

/-- Update of an existing key of the `team_opponents` dict. -/
def assocSet (l : List (String × List String)) (k : String) (v : List String) :
    List (String × List String) :=
  l.map fun p => if p.1 == k then (p.1, v) else p

/-- The main loop of `validate_round_robin_schedule` over `all_matches`,
followed by the per-team opponent-count check.  A `.error t` is the Python
`KeyError` raised by `team_opponents[t]` when `t` was never given a key. -/
def validateGo (expected : Nat) :
    List (String × String) → List (String × String) →
    List (String × List String) → Except String Bool
  | [], _, opp =>
    if opp.all fun p => p.2.length == expected then .ok true else .ok false
  | (t1, t2) :: rest, pairings, opp =>
    let pair := canonPair t1 t2
    if pair ∈ pairings then .ok false
    else
      match assocGet opp t1 with
      | none => .error t1
      | some s1 =>
        let opp1 := assocSet opp t1 (setAdd s1 t2)
        match assocGet opp1 t2 with
        | none => .error t2
        | some s2 =>
          validateGo expected rest (pair :: pairings)
            (assocSet opp1 t2 (setAdd s2 t1))

/-- Embedding of `validate_round_robin_schedule(teams, schedule)`.  `.ok b` is the Python
return value `b`; `.error t` is a `KeyError` on team `t`.  The dict
comprehension `{team: set() for team in teams if team != "BYE"}` collapses
duplicate names to a single key; the association list keeps the duplicates,
which is observationally identical because every same-key entry is read and
written in lockstep by `assocGet`/`assocSet`. -/
def validate_round_robin_schedule (teams : List String)
    (schedule : List (List (String × String))) : Except String Bool :=
  let allMatches := schedule.flatten
  let realTeams := teams.filter fun t => t != "BYE"
  let opp0 := realTeams.map fun t => (t, ([] : List String))
  validateGo (realTeams.length - 1) allMatches [] opp0

/-! ## Embedding of app.py: match results, standings, tiebreaks -/

/-- A row of the tournament CSV as read by `get_tournament_data`. -/
structure Match where
  week : Nat
  team1 : String
  team2 : String
deriving DecidableEq

/-- One entry of the `standings` dict of `calculate_cup_standings`. -/
structure StandingsRow where
  team_name : String
  played : Nat
  wins : Nat
  draws : Nat
  losses : Nat
  cup_points : Nat
  goal_difference : Int
deriving DecidableEq

/-- Embedding of `calculate_match_result(team1_points, team2_points)`. -/
def calculate_match_result (team1_points team2_points : Int) : String × Int :=
  let diff := team1_points - team2_points
  if |diff| < 3 then ("draw", diff)
  else if diff ≥ 3 then ("win", diff)
  else ("loss", diff)

/-- Embedding of `find_head_to_head_result(team1, team2, tournament_data, team_points,
current_week)`, recursing over `tournament_data`.  In the source both
orientation branches end (after its swap) with `team1_points` holding the
points of the `team1` argument, which is what this embedding computes.
Result: `(h2h_result, h2h_week, team1_h2h_points, team2_h2h_points)`. -/
def find_head_to_head_result (team1 team2 : String)
    (team_points : String → Nat → Int) (current_week : Nat) :
    List Match → String × Option Nat × Int × Int
  | [] => ("no_match", none, 0, 0)
  | m :: rest =>
    if m.week ≥ current_week then
      find_head_to_head_result team1 team2 team_points current_week rest
    else if (m.team1 = team1 ∧ m.team2 = team2) ∨
        (m.team1 = team2 ∧ m.team2 = team1) then
      let p1 := team_points team1 m.week
      let p2 := team_points team2 m.week
      let r := (calculate_match_result p1 p2).1
      if r = "win" then ("team1_wins", some m.week, p1, p2)
      else if r = "loss" then ("team2_wins", some m.week, p1, p2)
      else ("draw", some m.week, p1, p2)
    else find_head_to_head_result team1 team2 team_points current_week rest

/-- The unordered pairing condition tested by `find_head_to_head_result`. -/
def pairsTeams (m : Match) (a b : String) : Prop :=
  (m.team1 = a ∧ m.team2 = b) ∨ (m.team1 = b ∧ m.team2 = a)

instance (m : Match) (a b : String) : Decidable (pairsTeams m a b) := by
  unfold pairsTeams
  infer_instance

/-- The sort key `lambda t: (-total_hits, goal_difference)` of
`apply_tiebreaker_rules`, with `hits_data` modelling
`get_team_total_hits_from_csv(name, current_week)`. -/
def tieKey (hits_data : String → Nat → Nat) (current_week : Nat)
    (t : StandingsRow) : Int × Int :=
  (-(hits_data t.team_name current_week : Int), t.goal_difference)

/-- Lexicographic order on the sort key. -/
def lexLe (a b : Int × Int) : Bool :=
  a.1 < b.1 || (a.1 == b.1 && a.2 ≤ b.2)

/-- Python `sorted(group, key=..., reverse=True)`: the stable sort placing
`a` before `b` exactly when `key a` is lexicographically at least `key b`
(equal keys keep input order).  `List.insertionSort` is stable, so it
computes the same list as Python's stable sort for this total relation. -/
def sortDescByKey (hits_data : String → Nat → Nat) (current_week : Nat)
    (group : List StandingsRow) : List StandingsRow :=
  group.insertionSort fun a b =>
    lexLe (tieKey hits_data current_week b) (tieKey hits_data current_week a)
      = true

/-- Embedding of `apply_tiebreaker_rules(teams_with_same_points, tournament_data,
team_points, current_week)`.  For a two-team group with `no_match`
head-to-head the source falls through to the generic hits/goal-difference
sort, as does any group of three or more. -/
def apply_tiebreaker_rules (hits_data : String → Nat → Nat)
    (teams_with_same_points : List StandingsRow) (tournament_data : List Match)
    (team_points : String → Nat → Int) (current_week : Nat) :
    List StandingsRow :=
  match teams_with_same_points with
  | [] => []
  | [t] => [t]
  | [team1, team2] =>
    let h := find_head_to_head_result team1.team_name team2.team_name
      team_points current_week tournament_data
    let h2h_result := h.1
    let team1_h2h_points := h.2.2.1
    let team2_h2h_points := h.2.2.2
    if h2h_result = "team1_wins" then [team1, team2]
    else if h2h_result = "team2_wins" then [team2, team1]
    else if h2h_result = "draw" then
      if team1_h2h_points > team2_h2h_points then [team1, team2]
      else if team2_h2h_points > team1_h2h_points then [team2, team1]
      else
        let h1 := hits_data team1.team_name current_week
        let h2 := hits_data team2.team_name current_week
        if h1 < h2 then [team1, team2]
        else if h2 < h1 then [team2, team1]
        else if team1.goal_difference ≥ team2.goal_difference then
          [team1, team2]
        else [team2, team1]
    else sortDescByKey hits_data current_week [team1, team2]
  | group => sortDescByKey hits_data current_week group

/-- The `teams.add(...)` collection at the top of `calculate_cup_standings`,
determinised to first-appearance order. -/
def addUnique (l : List String) (x : String) : List String :=
  if x ∈ l then l else l ++ [x]

/-- The set of teams named by the fixture list. -/
def collectTeams (tournament_data : List Match) : List String :=
  tournament_data.foldl (fun acc m => addUnique (addUnique acc m.team1) m.team2) []

/-- The zero-initialised standings entry for one team. -/
def initRow (t : String) : StandingsRow :=
  ⟨t, 0, 0, 0, 0, 0, 0⟩

/-- Update `standings[name]` by `f`, on the dict modelled as a row list. -/
def updateRow (rows : List StandingsRow) (name : String)
    (f : StandingsRow → StandingsRow) : List StandingsRow :=
  rows.map fun r => if r.team_name = name then f r else r

/-- The scoring-eligibility condition
`week < current_week or (week == current_week and get_current_week_info()[1])`,
with the oracle's deadline flag as the parameter `deadline_passed`. -/
def matchEligible (current_week : Nat) (deadline_passed : Bool) (m : Match) :
    Bool :=
  m.week < current_week || (m.week == current_week && deadline_passed)

/-- The body of the `for match in tournament_data` loop of
`calculate_cup_standings`. -/
def processMatch (team_points : String → Nat → Int) (current_week : Nat)
    (deadline_passed : Bool) (rows : List StandingsRow) (m : Match) :
    List StandingsRow :=
  if matchEligible current_week deadline_passed m then
    let p1 := team_points m.team1 m.week
    let p2 := team_points m.team2 m.week
    let rd := calculate_match_result p1 p2
    let rows1 := updateRow rows m.team1 fun r =>
      { r with played := r.played + 1,
               goal_difference := r.goal_difference + rd.2 }
    let rows2 := updateRow rows1 m.team2 fun r =>
      { r with played := r.played + 1,
               goal_difference := r.goal_difference - rd.2 }
    if rd.1 = "win" then
      updateRow (updateRow rows2 m.team1 fun r =>
          { r with wins := r.wins + 1, cup_points := r.cup_points + 3 })
        m.team2 fun r => { r with losses := r.losses + 1 }
    else if rd.1 = "draw" then
      updateRow (updateRow rows2 m.team1 fun r =>
          { r with draws := r.draws + 1, cup_points := r.cup_points + 1 })
        m.team2 fun r =>
          { r with draws := r.draws + 1, cup_points := r.cup_points + 1 }
    else
      updateRow (updateRow rows2 m.team1 fun r =>
          { r with losses := r.losses + 1 })
        m.team2 fun r =>
          { r with wins := r.wins + 1, cup_points := r.cup_points + 3 }
  else rows

/-- The `standings` dict after the match-processing loop of
`calculate_cup_standings`: one zero-initialised row per team, then every
fixture folded in. -/
def rawStandings (team_points : String → Nat → Int) (current_week : Nat)
    (deadline_passed : Bool) (tournament_data : List Match) :
    List StandingsRow :=
  tournament_data.foldl (processMatch team_points current_week deadline_passed)
    ((collectTeams tournament_data).map initRow)

/-- Embedding of `calculate_cup_standings(tournament_data, team_points, cup_weeks,
current_week)`.  `cup_weeks` is accepted and ignored, as in the source;
`deadline_passed` models the `get_current_week_info()[1]` oracle and
`hits_data` the `weeks.csv` hits lookup used by the tiebreaker. -/
def calculate_cup_standings (hits_data : String → Nat → Nat)
    (tournament_data : List Match) (team_points : String → Nat → Int)
    (cup_weeks : List Nat) (current_week : Nat) (deadline_passed : Bool) :
    List StandingsRow :=
  let _ := cup_weeks
  let all_teams := rawStandings team_points current_week deadline_passed
    tournament_data
  let keys := ((all_teams.map (·.cup_points)).dedup).insertionSort
    fun a b => b ≤ a
  (keys.map fun p =>
    apply_tiebreaker_rules hits_data
      (all_teams.filter fun r => r.cup_points == p)
      tournament_data team_points current_week).flatten

/-- The effect of one `calculate_cup_standings` loop iteration on a single
row: `processMatch` is the row-wise map of this function (each dict update
touches exactly the rows whose `team_name` matches, and none of the updates
changes `team_name`). -/
def applyMatch (team_points : String → Nat → Int) (current_week : Nat)
    (deadline_passed : Bool) (m : Match) (r : StandingsRow) : StandingsRow :=
  if matchEligible current_week deadline_passed m then
    let rd := calculate_match_result (team_points m.team1 m.week)
      (team_points m.team2 m.week)
    { team_name := r.team_name
      played := r.played + (if r.team_name = m.team1 then 1 else 0)
        + (if r.team_name = m.team2 then 1 else 0)
      wins := r.wins
        + (if r.team_name = m.team1 ∧ rd.1 = "win" then 1 else 0)
        + (if r.team_name = m.team2 ∧ rd.1 ≠ "win" ∧ rd.1 ≠ "draw" then 1 else 0)
      draws := r.draws
        + (if r.team_name = m.team1 ∧ rd.1 = "draw" then 1 else 0)
        + (if r.team_name = m.team2 ∧ rd.1 = "draw" then 1 else 0)
      losses := r.losses
        + (if r.team_name = m.team1 ∧ rd.1 ≠ "win" ∧ rd.1 ≠ "draw" then 1 else 0)
        + (if r.team_name = m.team2 ∧ rd.1 = "win" then 1 else 0)
      cup_points := r.cup_points
        + (if r.team_name = m.team1 then
            if rd.1 = "win" then 3 else if rd.1 = "draw" then 1 else 0
          else 0)
        + (if r.team_name = m.team2 then
            if rd.1 = "win" then 0 else if rd.1 = "draw" then 1 else 3
          else 0)
      goal_difference := r.goal_difference
        + (if r.team_name = m.team1 then rd.2 else 0)
        - (if r.team_name = m.team2 then rd.2 else 0) }
  else r

/-- Fold of `applyMatch` over a fixture list, acting on one row. -/
def foldMatches (team_points : String → Nat → Int) (current_week : Nat)
    (deadline_passed : Bool) (ml : List Match) (r : StandingsRow) :
    StandingsRow :=
  ml.foldl (fun r m => applyMatch team_points current_week deadline_passed m r) r

/-! ## Embedding of app.py: schedule view -/

/-- One row of the schedule view of `prepare_cup_schedule`. -/
structure MatchView where
  team1 : String
  team2 : String
  result : String
deriving DecidableEq

/-- One week of the schedule view of `prepare_cup_schedule`. -/
structure WeekView where
  week : Nat
  week_matches : List MatchView
  is_current : Bool
deriving DecidableEq

/-- The per-fixture result string of `prepare_cup_schedule`. -/
def matchResultText (team_points : String → Nat → Int) (current_week : Nat)
    (deadline_passed : Bool) (week : Nat) (m : Match) : String :=
  if week < current_week || (week == current_week && deadline_passed) then
    let p1 := team_points m.team1 week
    let p2 := team_points m.team2 week
    let r := (calculate_match_result p1 p2).1
    if r = "win" then
      toString p1 ++ "-" ++ toString p2 ++ " (Thắng " ++ m.team1 ++ ")"
    else if r = "draw" then
      toString p1 ++ "-" ++ toString p2 ++ " (Hòa)"
    else
      toString p1 ++ "-" ++ toString p2 ++ " (Thắng " ++ m.team2 ++ ")"
  else "Chưa đấu"

/-- Embedding of `prepare_cup_schedule(tournament_data, team_points, cup_weeks,
current_week)`: only weeks `≤ current_week` of `cup_weeks` are emitted
(`weeks_to_show`), in order, as a week-keyed view. -/
def prepare_cup_schedule (tournament_data : List Match)
    (team_points : String → Nat → Int) (cup_weeks : List Nat)
    (current_week : Nat) (deadline_passed : Bool) : List WeekView :=
  (cup_weeks.filter fun w => w ≤ current_week).map fun week =>
    { week := week
      week_matches := (tournament_data.filter fun m => m.week == week).map fun m =>
        { team1 := m.team1
          team2 := m.team2
          result := matchResultText team_points current_week deadline_passed
            week m }
      is_current := week == current_week }

/-! ## Embedding of app.py: live/historical merge -/

/-- Test `charsStarts needle hay`: `needle` is an initial segment of `hay`. -/
def charsStarts : List Char → List Char → Bool
  | [], _ => true
  | _ :: _, [] => false
  | a :: as, b :: bs => a == b && charsStarts as bs

/-- Test `charsContains needle hay`: Python `needle in hay` on character lists. -/
def charsContains (needle : List Char) : List Char → Bool
  | [] => charsStarts needle []
  | c :: t => charsStarts needle (c :: t) || charsContains needle t

/-- Python `s.lower()`, as the character list of the string: Lean's
`String.toLower` is exactly `String.map Char.toLower`, and mapping over the
character list is its transparent form. -/
def lowerData (s : String) : List Char :=
  s.data.map Char.toLower

/-- The name-matching test of `get_live_and_historical_data`:
`team_name.lower() in live_team.lower() or live_team.lower() in
team_name.lower()`. -/
def namesMatch (team_name live_team : String) : Bool :=
  charsContains (lowerData team_name) (lowerData live_team) ||
    charsContains (lowerData live_team) (lowerData team_name)

/-- One record of the live feed DataFrame (`team_name, live_points, hits`). -/
structure LiveRec where
  team_name : String
  live_points : Int
  hits : Int
deriving DecidableEq

/-- The formatting `f"{live_points}:{hits}"`. -/
def fmtLive (r : LiveRec) : String :=
  toString r.live_points ++ ":" ++ toString r.hits

/-- Python dict assignment `live_data_map[team_name] = value` on a map
modelled as an insertion-ordered association list. -/
def assocUpdateStr (l : List (String × String)) (k v : String) :
    List (String × String) :=
  if l.any fun p => p.1 == k then
    l.map fun p => if p.1 == k then (k, v) else p
  else l ++ [(k, v)]

/-- The `live_data_map` built from the live DataFrame rows, in order. -/
def buildLiveMap (recs : List LiveRec) : List (String × String) :=
  recs.foldl (fun acc r => assocUpdateStr acc r.team_name (fmtLive r)) []

/-- The inner loop `for live_team, live_value in live_data_map.items()` with
`break` on first match: the first live record matching the historical name. -/
def findLiveValue (live_map : List (String × String)) (team_name : String) :
    Option String :=
  (live_map.find? fun p => namesMatch team_name p.1).map (·.2)

/-- The `while len(row) <= idx: row.append('0:0')` padding. -/
def padRowTo (row : List String) (n : Nat) : List String :=
  row ++ List.replicate (n - row.length) "0:0"

/-- The per-row overlay of `get_live_and_historical_data`: the row's team
name is `row[0]`; if some live record matches it, the current-week cell is
replaced by that record's value. -/
def mergeRow (live_map : List (String × String)) (current_week : Nat)
    (row : List String) : List String :=
  match findLiveValue live_map (row.headD "") with
  | none => row
  | some v => (padRowTo row (current_week + 1)).set current_week v

/-- Embedding of `get_live_and_historical_data(league_id, current_week)` downstream of the
historical read: `historical_data` is the table from `get_historical_data`
(header row first), `live` is the outcome of `extract_league_data` —
`.error` when the fetch raises (caught by the `except` branch, which returns
the historical table), `.ok []` when `_extract_from_url` recovered from a
network or parse error by returning an empty frame. -/
def get_live_and_historical_data (historical_data : List (List String))
    (live : Except String (List LiveRec)) (current_week : Nat) :
    List (List String) :=
  match live with
  | .error _ => historical_data
  | .ok recs =>
    let live_map := buildLiveMap recs
    let headers := historical_data.headD []
    if current_week < headers.length then
      match historical_data with
      | [] => []
      | hrow :: rows => hrow :: rows.map (mergeRow live_map current_week)
    else historical_data

/-! ## Claims and supporting lemmas -/

/-- C2: for all integer weekly scores, `calculate_match_result` returns a
draw exactly when the absolute score difference is below 3, a win for the
first team exactly when the difference is at least 3, and a win for the
second team (a `"loss"` for the first) exactly when it is at most -3; in
particular (10,10) and (10,12) are draws, (10,13) is a second-team win and
(13,10) a first-team win. -/
theorem c2_margin_rule :
    (∀ scoreA scoreB : Int,
      ((calculate_match_result scoreA scoreB).1 = "draw" ↔ |scoreA - scoreB| < 3)
      ∧ ((calculate_match_result scoreA scoreB).1 = "win" ↔ scoreA - scoreB ≥ 3)
      ∧ ((calculate_match_result scoreA scoreB).1 = "loss" ↔ scoreA - scoreB ≤ -3))
    ∧ (calculate_match_result 10 10).1 = "draw"
    ∧ (calculate_match_result 10 12).1 = "draw"
    ∧ (calculate_match_result 10 13).1 = "loss"
    ∧ (calculate_match_result 13 10).1 = "win" := by
  refine ⟨fun a b => ?_, by decide, by decide, by decide, by decide⟩
  have habs : |a - b| < 3 ↔ -3 < a - b ∧ a - b < 3 := abs_lt
  unfold calculate_match_result
  dsimp only
  split_ifs with h1 h2 <;>
    refine ⟨?_, ?_, ?_⟩ <;> simp_all <;> omega

/-- C7: a failed live fetch never aborts the merge: when the fetch raises
(`.error`) or recovers to an empty record set (`.ok []`),
`get_live_and_historical_data` returns the historical table exactly as it
was, every row unchanged and the current week left at its historical
value. -/
theorem c7_live_fetch_failure (historical_data : List (List String))
    (current_week : Nat) :
    (∀ e, get_live_and_historical_data historical_data (.error e) current_week
        = historical_data)
    ∧ get_live_and_historical_data historical_data (.ok []) current_week
        = historical_data := by
  constructor
  · intro e; rfl
  · have hmr : mergeRow (buildLiveMap []) current_week = fun r => r := by
      funext r; rfl
    cases historical_data <;> simp [get_live_and_historical_data, hmr]

/-- C8 counterexample: `generate_round_robin_schedule` does not fail with a
`ConfigurationError` on degenerate input — no such error exists in the
code.  It returns a normal schedule for the duplicate list
`["A", "A"]`, the empty schedule for no teams, and a single empty round for
one team. -/
theorem c8_counterexample :
    generate_round_robin_schedule ["A", "A"] = [[("A", "A")]]
    ∧ generate_round_robin_schedule [] = []
    ∧ generate_round_robin_schedule ["A"] = [[]] := by
  refine ⟨by decide, rfl, by decide⟩

/-- C8 amended: the generator performs no input validation: for fewer than
2 teams it returns a schedule containing no matches at all, and a list with
duplicate names is accepted and scheduled as usual (here producing the
degenerate pairing ("A", "A")); it never raises any error. -/
theorem c8_amended :
    (∀ teams : List String, teams.length < 2 →
      (generate_round_robin_schedule teams).flatten = [])
    ∧ generate_round_robin_schedule ["A", "A"] = [[("A", "A")]] := by
  constructor
  · intro ts h
    match ts, h with
    | [], _ => rfl
    | [t], _ =>
      simp [generate_round_robin_schedule, generate_round_robin_schedule_full,
        padTeams, buildRound, buildRoundRaw, slotMatch, rotateSlice, notBye,
        List.filter]
  · decide

theorem c8_amended_witness :
    (generate_round_robin_schedule ["A"]).flatten = []
    ∧ generate_round_robin_schedule ["A", "A"] = [[("A", "A")]] :=
  ⟨c8_amended.1 ["A"] (by decide), c8_amended.2⟩

/-- C9: the frame effect on the caller's list: for every odd-length input
list the function appends the string "BYE" in place, so after the call the
caller's list is the original with "BYE" appended — of even length and
ending in "BYE" — while every even-length input list is left unchanged. -/
theorem c9_bye_append (teams : List String) :
    (teams.length % 2 = 1 →
      (generate_round_robin_schedule_full teams).1 = teams ++ ["BYE"]
      ∧ (generate_round_robin_schedule_full teams).1.length % 2 = 0
      ∧ (generate_round_robin_schedule_full teams).1.getLast? = some "BYE")
    ∧ (teams.length % 2 = 0 →
      (generate_round_robin_schedule_full teams).1 = teams) := by
  constructor
  · intro h
    have hp : padTeams teams = teams ++ ["BYE"] := by
      unfold padTeams; rw [if_pos (by omega)]
    refine ⟨?_, ?_, ?_⟩
    · show padTeams teams = teams ++ ["BYE"]
      exact hp
    · show (padTeams teams).length % 2 = 0
      rw [hp]; simp; omega
    · show (padTeams teams).getLast? = some "BYE"
      rw [hp]; exact List.getLast?_concat _
  · intro h
    show padTeams teams = teams
    unfold padTeams; rw [if_neg (by omega)]

theorem c9_bye_append_witness :
    ((generate_round_robin_schedule_full ["A"]).1 = ["A", "BYE"]
      ∧ (generate_round_robin_schedule_full ["A"]).1.length % 2 = 0
      ∧ (generate_round_robin_schedule_full ["A"]).1.getLast? = some "BYE")
    ∧ (generate_round_robin_schedule_full ["A", "B"]).1 = ["A", "B"] :=
  ⟨(c9_bye_append ["A"]).1 (by decide), (c9_bye_append ["A", "B"]).2 (by decide)⟩

/-- C10: `validate_round_robin_schedule` is total only when every team
named by the schedule appears in the team list: the opponent dict is keyed
only by listed teams, so the schedule `[[("A", "C")]]` against the team list
`["A", "B"]` raises a `KeyError` on the unlisted team "C" (modelled as
`.error "C"`) instead of returning a pass/fail result, while a schedule
naming only listed teams returns an ordinary `.ok` verdict. -/
theorem c10_validator_keyerror :
    (validate_round_robin_schedule ["A", "B"] [[("A", "C")]] = .error "C"
      ∧ "C" ∉ ["A", "B"])
    ∧ validate_round_robin_schedule ["A", "B"] [[("A", "B")]] = .ok true := by
  refine ⟨⟨by rfl, by decide⟩, by rfl⟩

/-- C6 counterexample: the claim says the first historical team matching a
given live record wins.  In the code each historical team instead takes the
first live record matching it, so a single live record "AB" overlays BOTH
historical teams "A" (matched by substring containment) and "AB": under the
claim, "AB" would have kept its prior "0:0". -/
theorem c6_counterexample :
    get_live_and_historical_data [["team", "1"], ["A", "0:0"], ["AB", "0:0"]]
      (.ok [⟨"AB", 45, 2⟩]) 1
    = [["team", "1"], ["A", "45:2"], ["AB", "45:2"]] := by
  rfl

/-- C3 counterexample: the claim says an unscored fixture is marked as not
yet played in the schedule view.  A fixture in week 2 with current week 1
contributes nothing to standings, but `prepare_cup_schedule` omits week 2
entirely (`weeks_to_show` keeps only weeks at most the current week): the
view contains only week 1 and no match entry at all, so the fixture is not
marked anywhere. -/
theorem c3_counterexample :
    ((prepare_cup_schedule [⟨2, "A", "B"⟩] (fun _ _ => 0) [1, 2, 3, 4, 5, 6, 7]
        1 true).map (·.week) = [1])
    ∧ ∀ wv ∈ prepare_cup_schedule [⟨2, "A", "B"⟩] (fun _ _ => 0)
        [1, 2, 3, 4, 5, 6, 7] 1 true, wv.week_matches = [] := by
  refine ⟨by decide, by decide⟩

theorem find_h2h_of_unique (a b : String) (tp : String → Nat → Int) (cw : Nat)
    (td : List Match) (m : Match) (hm : m ∈ td) (hw : m.week < cw)
    (hp : pairsTeams m a b)
    (hu : ∀ m2 ∈ td, m2.week < cw → pairsTeams m2 a b → m2 = m) :
    find_head_to_head_result a b tp cw td =
      (if (calculate_match_result (tp a m.week) (tp b m.week)).1 = "win" then
        ("team1_wins", some m.week, tp a m.week, tp b m.week)
      else if (calculate_match_result (tp a m.week) (tp b m.week)).1 = "loss" then
        ("team2_wins", some m.week, tp a m.week, tp b m.week)
      else ("draw", some m.week, tp a m.week, tp b m.week)) := by
  induction td with
  | nil => cases hm
  | cons h t ih =>
    rcases List.mem_cons.mp hm with rfl | hmt
    · rw [find_head_to_head_result, if_neg (show ¬m.week ≥ cw by omega),
        if_pos (show (m.team1 = a ∧ m.team2 = b) ∨ (m.team1 = b ∧ m.team2 = a)
          from hp)]
    · by_cases hskip : h.week ≥ cw
      · rw [find_head_to_head_result, if_pos hskip]
        exact ih hmt fun m2 h2 hw2 hp2 => hu m2 (List.mem_cons_of_mem _ h2) hw2 hp2
      · by_cases hph : pairsTeams h a b
        · have heq : h = m := hu h (List.mem_cons_self _ _) (by omega) hph
          subst heq
          rw [find_head_to_head_result, if_neg hskip,
            if_pos (show (h.team1 = a ∧ h.team2 = b) ∨ (h.team1 = b ∧ h.team2 = a)
              from hph)]
        · rw [find_head_to_head_result, if_neg hskip,
            if_neg (show ¬((h.team1 = a ∧ h.team2 = b) ∨ (h.team1 = b ∧ h.team2 = a))
              from hph)]
          exact ih hmt fun m2 h2 hw2 hp2 => hu m2 (List.mem_cons_of_mem _ h2) hw2 hp2

/-- C4: for a two-team equal-points group, if the fixture list contains a
unique fixture pairing the two teams in a week strictly before the current
week and the margin-of-3 rule on that week's scores yields a winner, then
`apply_tiebreaker_rules` ranks that winner first — for every goal
difference and hits table, i.e. regardless of either team's
`goal_difference` or total hits. -/
theorem c4_head_to_head (hits_data : String → Nat → Nat) (td : List Match)
    (tp : String → Nat → Int) (cw : Nat) (t1 t2 : StandingsRow) (m : Match)
    (hm : m ∈ td) (hw : m.week < cw)
    (hp : (m.team1 = t1.team_name ∧ m.team2 = t2.team_name)
      ∨ (m.team1 = t2.team_name ∧ m.team2 = t1.team_name))
    (hu : ∀ m2 ∈ td, m2.week < cw →
      ((m2.team1 = t1.team_name ∧ m2.team2 = t2.team_name)
        ∨ (m2.team1 = t2.team_name ∧ m2.team2 = t1.team_name)) → m2 = m) :
    ((calculate_match_result (tp t1.team_name m.week) (tp t2.team_name m.week)).1
        = "win" →
      apply_tiebreaker_rules hits_data [t1, t2] td tp cw = [t1, t2])
    ∧ ((calculate_match_result (tp t1.team_name m.week) (tp t2.team_name m.week)).1
        = "loss" →
      apply_tiebreaker_rules hits_data [t1, t2] td tp cw = [t2, t1]) := by
  have hspec := find_h2h_of_unique t1.team_name t2.team_name tp cw td m hm hw hp hu
  constructor
  · intro hwin
    have hfind : find_head_to_head_result t1.team_name t2.team_name tp cw td
        = ("team1_wins", some m.week, tp t1.team_name m.week,
            tp t2.team_name m.week) := by
      rw [hspec, if_pos hwin]
    simp [apply_tiebreaker_rules, hfind]
  · intro hloss
    have hnw : (calculate_match_result (tp t1.team_name m.week)
        (tp t2.team_name m.week)).1 ≠ "win" := by
      rw [hloss]; decide
    have hfind : find_head_to_head_result t1.team_name t2.team_name tp cw td
        = ("team2_wins", some m.week, tp t1.team_name m.week,
            tp t2.team_name m.week) := by
      rw [hspec, if_neg hnw, if_pos hloss]
    simp [apply_tiebreaker_rules, hfind]

theorem c4_head_to_head_witness :
    apply_tiebreaker_rules (fun _ _ => 0)
      [⟨"A", 0, 0, 0, 0, 5, -100⟩, ⟨"B", 0, 0, 0, 0, 5, 100⟩]
      [⟨1, "A", "B"⟩]
      (fun t _ => if t = "A" then 50 else 40) 2
    = [⟨"A", 0, 0, 0, 0, 5, -100⟩, ⟨"B", 0, 0, 0, 0, 5, 100⟩] :=
  (c4_head_to_head (fun _ _ => 0) [⟨1, "A", "B"⟩]
    (fun t _ => if t = "A" then 50 else 40) 2
    ⟨"A", 0, 0, 0, 0, 5, -100⟩ ⟨"B", 0, 0, 0, 0, 5, 100⟩ ⟨1, "A", "B"⟩
    (by decide) (by decide) (by decide) (by decide)).1 (by decide)

/-- C6 amended: with the live fetch succeeding and the current-week column
present in the header row, the merge maps every historical row as follows:
a row matched by no live record (case-insensitive bidirectional substring
containment) is returned unchanged; a matched row takes the value of the
FIRST matching live record in feed order, written into the current-week
cell of the row padded with "0:0" defaults, with every other position
unchanged; the header row is never touched.  (A single live record may
overlay several historical rows; see the counterexample.) -/
theorem c6_amended (recs : List LiveRec) (cw : Nat) (hrow : List String)
    (rows : List (List String)) (hcw : cw < hrow.length) :
    get_live_and_historical_data (hrow :: rows) (.ok recs) cw
      = hrow :: rows.map (mergeRow (buildLiveMap recs) cw)
    ∧ ∀ row : List String,
        (findLiveValue (buildLiveMap recs) (row.headD "") = none →
          mergeRow (buildLiveMap recs) cw row = row)
        ∧ ((findLiveValue (buildLiveMap recs) (row.headD "")).isSome
            ↔ ∃ p ∈ buildLiveMap recs, namesMatch (row.headD "") p.1 = true)
        ∧ ∀ v, findLiveValue (buildLiveMap recs) (row.headD "") = some v →
            (mergeRow (buildLiveMap recs) cw row).getD cw "" = v
            ∧ (∀ j, j ≠ cw → (mergeRow (buildLiveMap recs) cw row).getD j ""
                = (padRowTo row (cw + 1)).getD j "")
            ∧ (∀ j, j ≠ cw → j < row.length →
                (mergeRow (buildLiveMap recs) cw row).getD j "" = row.getD j "") := by
  refine ⟨?_, fun row => ⟨?_, ?_, fun v hv => ⟨?_, ?_, ?_⟩⟩⟩
  · show (if cw < ((hrow :: rows).headD []).length then _ else _) = _
    rw [if_pos (by simpa using hcw)]
  · intro hnone
    unfold mergeRow
    rw [hnone]
  · simp [findLiveValue, Option.isSome_map, List.find?_isSome]
  · unfold mergeRow
    rw [hv]
    have hlen : cw < ((padRowTo row (cw + 1)).set cw v).length := by
      simp [padRowTo]; omega
    rw [List.getD_eq_getElem _ _ hlen]
    exact List.getElem_set_self hlen
  · intro j hj
    unfold mergeRow
    rw [hv]
    rw [List.getD_eq_getElem?_getD, List.getD_eq_getElem?_getD,
      List.getElem?_set_ne (fun h => hj h.symm)]
  · intro j hj hjr
    unfold mergeRow
    rw [hv]
    have hlen : j < ((padRowTo row (cw + 1)).set cw v).length := by
      simp [padRowTo]; omega
    rw [List.getD_eq_getElem _ _ hlen, List.getD_eq_getElem _ _ hjr]
    rw [List.getElem_set_ne (fun h => hj h.symm)]
    simp only [padRowTo]
    exact List.getElem_append_left hjr

theorem c6_amended_witness :
    get_live_and_historical_data [["team", "1"], ["John", "0:0"]]
      (.ok [⟨"JohnFC", 45, 2⟩]) 1
      = [["team", "1"], mergeRow (buildLiveMap [⟨"JohnFC", 45, 2⟩]) 1 ["John", "0:0"]]
    ∧ (mergeRow (buildLiveMap [⟨"JohnFC", 45, 2⟩]) 1 ["John", "0:0"]).getD 1 ""
      = "45:2" := by
  have h := c6_amended [⟨"JohnFC", 45, 2⟩] 1 ["team", "1"] [["John", "0:0"]]
    (by decide)
  exact ⟨h.1, ((h.2 ["John", "0:0"]).2.2 "45:2" (by rfl)).1⟩

theorem processMatch_eq_map (tp : String → Nat → Int) (cw : Nat) (dlp : Bool)
    (rows : List StandingsRow) (m : Match) :
    processMatch tp cw dlp rows m = rows.map (applyMatch tp cw dlp m) := by
  by_cases he : matchEligible cw dlp m
  · unfold processMatch updateRow
    rw [if_pos he]
    dsimp only
    by_cases h1 : (calculate_match_result (tp m.team1 m.week) (tp m.team2 m.week)).1 = "win"
    · rw [if_pos h1]
      simp only [List.map_map]
      refine List.map_congr_left fun r _ => ?_
      obtain ⟨n, pl, wi, dr, lo, cp, gd⟩ := r
      by_cases hn1 : n = m.team1 <;> by_cases hn2 : n = m.team2 <;>
        simp_all [applyMatch, Function.comp]
    · rw [if_neg h1]
      by_cases h2 : (calculate_match_result (tp m.team1 m.week) (tp m.team2 m.week)).1 = "draw"
      · rw [if_pos h2]
        simp only [List.map_map]
        refine List.map_congr_left fun r _ => ?_
        obtain ⟨n, pl, wi, dr, lo, cp, gd⟩ := r
        by_cases hn1 : n = m.team1 <;> by_cases hn2 : n = m.team2 <;>
          simp_all [applyMatch, Function.comp]
      · rw [if_neg h2]
        simp only [List.map_map]
        refine List.map_congr_left fun r _ => ?_
        obtain ⟨n, pl, wi, dr, lo, cp, gd⟩ := r
        by_cases hn1 : n = m.team1 <;> by_cases hn2 : n = m.team2 <;>
          simp_all [applyMatch, Function.comp]
  · unfold processMatch
    rw [if_neg he]
    have h : ∀ r, applyMatch tp cw dlp m r = r := fun r => by
      unfold applyMatch; rw [if_neg he]
    rw [List.map_id'' h]

theorem applyMatch_team_name (tp : String → Nat → Int) (cw : Nat) (dlp : Bool)
    (m : Match) (r : StandingsRow) :
    (applyMatch tp cw dlp m r).team_name = r.team_name := by
  unfold applyMatch
  split_ifs <;> rfl

theorem applyMatch_played (tp : String → Nat → Int) (cw : Nat) (dlp : Bool)
    (m : Match) (r : StandingsRow) :
    (applyMatch tp cw dlp m r).played = r.played +
      (if matchEligible cw dlp m then
        (if r.team_name = m.team1 then 1 else 0)
          + (if r.team_name = m.team2 then 1 else 0)
      else 0) := by
  unfold applyMatch
  by_cases he : matchEligible cw dlp m <;> simp [he] <;> omega

theorem applyMatch_gd (tp : String → Nat → Int) (cw : Nat) (dlp : Bool)
    (m : Match) (r : StandingsRow) :
    (applyMatch tp cw dlp m r).goal_difference = r.goal_difference +
      (if matchEligible cw dlp m then
        (if r.team_name = m.team1 then
          (calculate_match_result (tp m.team1 m.week) (tp m.team2 m.week)).2
        else 0)
          - (if r.team_name = m.team2 then
            (calculate_match_result (tp m.team1 m.week) (tp m.team2 m.week)).2
          else 0)
      else 0) := by
  unfold applyMatch
  by_cases he : matchEligible cw dlp m <;> simp [he] <;> omega

theorem applyMatch_not_involved (tp : String → Nat → Int) (cw : Nat)
    (dlp : Bool) (m : Match) (r : StandingsRow)
    (h : matchEligible cw dlp m = false
      ∨ (r.team_name ≠ m.team1 ∧ r.team_name ≠ m.team2)) :
    applyMatch tp cw dlp m r = r := by
  unfold applyMatch
  rcases h with h | ⟨h1, h2⟩
  · rw [if_neg (by simp [h])]
  · by_cases he : matchEligible cw dlp m
    · simp [he, h1, h2]
    · rw [if_neg he]

theorem foldl_processMatch_eq_map (tp : String → Nat → Int) (cw : Nat)
    (dlp : Bool) (ml : List Match) (rows : List StandingsRow) :
    ml.foldl (processMatch tp cw dlp) rows
      = rows.map (foldMatches tp cw dlp ml) := by
  induction ml generalizing rows with
  | nil =>
    simp only [List.foldl_nil]
    have h : ∀ r : StandingsRow, foldMatches tp cw dlp [] r = r := fun r => rfl
    rw [List.map_id'' h]
  | cons m t ih =>
    rw [List.foldl_cons, processMatch_eq_map, ih, List.map_map]
    rfl

theorem foldMatches_team_name (tp : String → Nat → Int) (cw : Nat) (dlp : Bool)
    (ml : List Match) (r : StandingsRow) :
    (foldMatches tp cw dlp ml r).team_name = r.team_name := by
  induction ml generalizing r with
  | nil => rfl
  | cons m t ih =>
    show (foldMatches tp cw dlp t (applyMatch tp cw dlp m r)).team_name = _
    rw [ih, applyMatch_team_name]

theorem foldMatches_played (tp : String → Nat → Int) (cw : Nat) (dlp : Bool)
    (ml : List Match) (r : StandingsRow) :
    (foldMatches tp cw dlp ml r).played = r.played +
      ((ml.filter (matchEligible cw dlp)).map fun m =>
        (if m.team1 = r.team_name then 1 else 0)
          + (if m.team2 = r.team_name then 1 else 0)).sum := by
  induction ml generalizing r with
  | nil => simp [foldMatches]
  | cons m t ih =>
    show (foldMatches tp cw dlp t (applyMatch tp cw dlp m r)).played = _
    rw [ih, applyMatch_team_name, applyMatch_played]
    by_cases he : matchEligible cw dlp m <;>
      simp [he, List.filter_cons, eq_comm] <;> omega

theorem foldMatches_gd (tp : String → Nat → Int) (cw : Nat) (dlp : Bool)
    (ml : List Match) (r : StandingsRow) :
    (foldMatches tp cw dlp ml r).goal_difference = r.goal_difference +
      ((ml.filter (matchEligible cw dlp)).map fun m =>
        (if m.team1 = r.team_name then
          (calculate_match_result (tp m.team1 m.week) (tp m.team2 m.week)).2
        else 0)
          - (if m.team2 = r.team_name then
            (calculate_match_result (tp m.team1 m.week) (tp m.team2 m.week)).2
          else 0)).sum := by
  induction ml generalizing r with
  | nil => simp [foldMatches]
  | cons m t ih =>
    show (foldMatches tp cw dlp t (applyMatch tp cw dlp m r)).goal_difference = _
    rw [ih, applyMatch_team_name, applyMatch_gd]
    by_cases he : matchEligible cw dlp m <;>
      simp [he, List.filter_cons, eq_comm] <;> omega

theorem foldMatches_not_involved (tp : String → Nat → Int) (cw : Nat)
    (dlp : Bool) (ml : List Match) (r : StandingsRow)
    (h : ∀ m ∈ ml, matchEligible cw dlp m = true →
      m.team1 ≠ r.team_name ∧ m.team2 ≠ r.team_name) :
    foldMatches tp cw dlp ml r = r := by
  induction ml generalizing r with
  | nil => rfl
  | cons m t ih =>
    show foldMatches tp cw dlp t (applyMatch tp cw dlp m r) = r
    have hstep : applyMatch tp cw dlp m r = r := by
      by_cases he : matchEligible cw dlp m
      · refine applyMatch_not_involved _ _ _ _ _ (.inr ?_)
        have := h m (List.mem_cons_self _ _) he
        exact ⟨fun hc => this.1 hc.symm, fun hc => this.2 hc.symm⟩
      · exact applyMatch_not_involved _ _ _ _ _ (.inl (by simpa using he))
    rw [hstep]
    exact ih r fun m2 hm2 => h m2 (List.mem_cons_of_mem _ hm2)

theorem mem_addUnique_self (l : List String) (x : String) : x ∈ addUnique l x := by
  unfold addUnique
  split_ifs with h
  · exact h
  · simp

theorem addUnique_sub (l : List String) (x y : String) (h : y ∈ l) :
    y ∈ addUnique l x := by
  unfold addUnique
  split_ifs
  · exact h
  · simp [h]

theorem addUnique_nodup (l : List String) (x : String) (h : l.Nodup) :
    (addUnique l x).Nodup := by
  unfold addUnique
  split_ifs with hx
  · exact h
  · simp [List.nodup_append, h, hx]

theorem collectTeams_go_mem (td : List Match) (acc : List String) (x : String)
    (h : x ∈ acc) :
    x ∈ td.foldl (fun acc m => addUnique (addUnique acc m.team1) m.team2) acc := by
  induction td generalizing acc with
  | nil => exact h
  | cons m t ih =>
    exact ih _ (addUnique_sub _ _ _ (addUnique_sub _ _ _ h))

theorem collectTeams_mem (td : List Match) (m : Match) (hm : m ∈ td) :
    m.team1 ∈ collectTeams td ∧ m.team2 ∈ collectTeams td := by
  unfold collectTeams
  generalize ([] : List String) = acc
  induction td generalizing acc with
  | nil => cases hm
  | cons h t ih =>
    rcases List.mem_cons.mp hm with rfl | hmt
    · constructor
      · rw [List.foldl_cons]
        exact collectTeams_go_mem _ _ _
          (addUnique_sub _ _ _ (mem_addUnique_self _ _))
      · rw [List.foldl_cons]
        exact collectTeams_go_mem _ _ _ (mem_addUnique_self _ _)
    · rw [List.foldl_cons]
      exact ih hmt _

theorem collectTeams_nodup (td : List Match) : (collectTeams td).Nodup := by
  unfold collectTeams
  have h : ∀ (acc : List String), acc.Nodup →
      (td.foldl (fun acc m => addUnique (addUnique acc m.team1) m.team2) acc).Nodup := by
    induction td with
    | nil => exact fun acc h => h
    | cons m t ih =>
      exact fun acc hacc => ih _ (addUnique_nodup _ _ (addUnique_nodup _ _ hacc))
  exact h [] (by simp)

theorem tiebreaker_perm (hd : String → Nat → Nat) (g : List StandingsRow)
    (td : List Match) (tp : String → Nat → Int) (cw : Nat) :
    (apply_tiebreaker_rules hd g td tp cw).Perm g := by
  match g with
  | [] => exact List.Perm.refl _
  | [t] => exact List.Perm.refl _
  | [t1, t2] =>
    show (apply_tiebreaker_rules hd [t1, t2] td tp cw).Perm [t1, t2]
    rw [apply_tiebreaker_rules]
    unfold sortDescByKey
    dsimp only
    split_ifs <;>
      first
        | exact List.Perm.refl _
        | exact List.Perm.swap _ _ _
        | exact List.perm_insertionSort _ _
  | t1 :: t2 :: t3 :: rest =>
    exact List.perm_insertionSort _ _

theorem flatten_map_perm_of_parts {α : Type} (keys : List Nat)
    (f g : Nat → List α) (h : ∀ p, (f p).Perm (g p)) :
    ((keys.map f).flatten).Perm ((keys.map g).flatten) := by
  induction keys with
  | nil => exact List.Perm.refl _
  | cons p ks ih =>
    simp only [List.map_cons, List.flatten_cons]
    exact List.Perm.append (h p) ih

theorem flatten_filter_perm {α : Type} (key : α → Nat) :
    ∀ (keys : List Nat) (l : List α), keys.Nodup →
      (∀ x ∈ l, key x ∈ keys) →
      ((keys.map fun p => l.filter fun x => key x == p).flatten).Perm l := by
  intro keys
  induction keys with
  | nil =>
    intro l _ hcov
    match l with
    | [] => exact List.Perm.refl _
    | x :: _ => cases hcov x (List.mem_cons_self _ _)
  | cons p ks ih =>
    intro l hnd hcov
    simp only [List.map_cons, List.flatten_cons]
    have hks : ∀ q ∈ ks, (l.filter fun x => key x == q)
        = ((l.filter fun x => !(key x == p)).filter fun x => key x == q) := by
      intro q hq
      rw [List.filter_filter]
      refine (List.filter_congr fun x _ => ?_).symm
      by_cases hxq : key x == q
      · have hqp : q ≠ p := fun hc => (List.nodup_cons.mp hnd).1 (hc ▸ hq)
        have : ¬(key x == p) = true := by
          intro hc
          exact hqp (by
            have h1 : key x = q := by simpa using hxq
            have h2 : key x = p := by simpa using hc
            omega)
        simp [hxq, this]
      · simp [Bool.and_eq_true, hxq]
    have hmap : (ks.map fun q => l.filter fun x => key x == q)
        = ks.map fun q => (l.filter fun x => !(key x == p)).filter
            fun x => key x == q :=
      List.map_congr_left hks
    rw [hmap]
    have hrest : (((ks.map fun q => (l.filter fun x => !(key x == p)).filter
        fun x => key x == q)).flatten).Perm (l.filter fun x => !(key x == p)) := by
      refine ih _ (List.nodup_cons.mp hnd).2 ?_
      intro x hx
      have hxl := (List.mem_filter.mp hx).1
      have hxp := (List.mem_filter.mp hx).2
      have := hcov x hxl
      rcases List.mem_cons.mp this with hc | hc
      · exfalso
        simp [hc] at hxp
      · exact hc
    exact ((List.Perm.refl _).append hrest).trans (List.filter_append_perm _ l)

theorem standings_perm (hd : String → Nat → Nat) (td : List Match)
    (tp : String → Nat → Int) (cws : List Nat) (cw : Nat) (dlp : Bool) :
    (calculate_cup_standings hd td tp cws cw dlp).Perm
      (rawStandings tp cw dlp td) := by
  unfold calculate_cup_standings
  set all := rawStandings tp cw dlp td with hall
  set keys := ((all.map (·.cup_points)).dedup).insertionSort
    (fun a b => b ≤ a) with hkeys
  have h1 : ((keys.map fun p => apply_tiebreaker_rules hd
      (all.filter fun r => r.cup_points == p) td tp cw).flatten).Perm
      ((keys.map fun p => all.filter fun r => r.cup_points == p).flatten) :=
    flatten_map_perm_of_parts _ _ _ fun p => tiebreaker_perm _ _ _ _ _
  refine h1.trans ?_
  refine flatten_filter_perm (fun r => r.cup_points) keys all ?_ ?_
  · have hperm : keys.Perm ((all.map (·.cup_points)).dedup) :=
      List.perm_insertionSort _ _
    exact hperm.nodup_iff.mpr (List.nodup_dedup _)
  · intro r hr
    have : r.cup_points ∈ (all.map (·.cup_points)).dedup := by
      rw [List.mem_dedup]
      exact List.mem_map_of_mem _ hr
    exact ((List.perm_insertionSort _ _).mem_iff).mpr this

theorem sum_map_add_int {α : Type} (l : List α) (f g : α → Int) :
    (l.map fun x => f x + g x).sum = (l.map f).sum + (l.map g).sum := by
  induction l with
  | nil => simp
  | cons x t ih => simp [ih]; omega

theorem sum_map_sub_int {α : Type} (l : List α) (f g : α → Int) :
    (l.map fun x => f x - g x).sum = (l.map f).sum - (l.map g).sum := by
  induction l with
  | nil => simp
  | cons x t ih => simp [ih]; omega

theorem sum_map_swap_int {α β : Type} (l1 : List α) (l2 : List β)
    (f : α → β → Int) :
    (l1.map fun a => (l2.map (f a)).sum).sum
      = (l2.map fun b => (l1.map fun a => f a b).sum).sum := by
  induction l1 with
  | nil => simp
  | cons a t ih =>
    simp only [List.map_cons, List.sum_cons, ih]
    rw [← sum_map_add_int]

theorem sum_if_single (ts : List String) (c : String) (d : Int)
    (hnd : ts.Nodup) (hmem : c ∈ ts) :
    (ts.map fun t => if c = t then d else 0).sum = d := by
  induction ts with
  | nil => cases hmem
  | cons x t ih =>
    rcases List.mem_cons.mp hmem with rfl | hmt
    · have hnx : c ∉ t := (List.nodup_cons.mp hnd).1
      have hzero : (t.map fun s => if c = s then d else 0).sum = 0 := by
        have hne : ∀ s ∈ t, (if c = s then d else 0) = 0 := by
          intro s hs
          have hcs : c ≠ s := fun hc => hnx (by rw [hc]; exact hs)
          rw [if_neg hcs]
        rw [List.map_congr_left hne]
        simp
      simp [hzero]
    · have hcx : c ≠ x := by
        intro hc
        exact (List.nodup_cons.mp hnd).1 (hc ▸ hmt)
      simp [hcx, ih (List.nodup_cons.mp hnd).2 hmt]

/-- C5: for every fixture list and score table, the goal differences of the
standings rows returned by `calculate_cup_standings` sum to exactly zero:
each counted fixture adds the score difference to the team1 side and
subtracts it from the team2 side. -/
theorem c5_goal_difference_zero (hits_data : String → Nat → Nat)
    (td : List Match) (tp : String → Nat → Int) (cws : List Nat) (cw : Nat)
    (dlp : Bool) :
    ((calculate_cup_standings hits_data td tp cws cw dlp).map
      (·.goal_difference)).sum = 0 := by
  have hperm := standings_perm hits_data td tp cws cw dlp
  rw [(hperm.map (·.goal_difference)).sum_eq]
  unfold rawStandings
  rw [foldl_processMatch_eq_map]
  have hList : ((((collectTeams td).map initRow).map
        (foldMatches tp cw dlp td)).map (·.goal_difference))
      = (collectTeams td).map
          (fun t => (foldMatches tp cw dlp td (initRow t)).goal_difference) := by
    rw [List.map_map, List.map_map]
    rfl
  rw [hList]
  have h2 : ∀ t ∈ collectTeams td,
      (foldMatches tp cw dlp td (initRow t)).goal_difference
      = ((td.filter (matchEligible cw dlp)).map fun m =>
          (if m.team1 = t then
            (calculate_match_result (tp m.team1 m.week) (tp m.team2 m.week)).2
          else 0)
            - (if m.team2 = t then
              (calculate_match_result (tp m.team1 m.week) (tp m.team2 m.week)).2
            else 0)).sum := by
    intro t _
    rw [foldMatches_gd]
    simp [initRow]
  rw [List.map_congr_left h2, sum_map_swap_int]
  have h3 : ∀ m ∈ td.filter (matchEligible cw dlp),
      ((collectTeams td).map fun t =>
        (if m.team1 = t then
          (calculate_match_result (tp m.team1 m.week) (tp m.team2 m.week)).2
        else 0)
          - (if m.team2 = t then
            (calculate_match_result (tp m.team1 m.week) (tp m.team2 m.week)).2
          else 0)).sum = 0 := by
    intro m hm
    have hmem := collectTeams_mem td m (List.mem_filter.mp hm).1
    rw [sum_map_sub_int,
      sum_if_single _ _ _ (collectTeams_nodup td) hmem.1,
      sum_if_single _ _ _ (collectTeams_nodup td) hmem.2]
    omega
  rw [List.map_congr_left h3]
  simp

/-- C3 amended: a fixture contributes to standings exactly when its week is
strictly before the current week or equals it with the deadline passed:
processing an ineligible fixture returns the standings unchanged, and every
output row's `played` equals the number of eligible fixture slots naming
that team.  In the schedule view, an ineligible fixture is marked
"Chưa đấu" (not yet played) only when its week is at most the current week;
weeks after the current week are omitted from the view entirely. -/
theorem c3_amended (hits_data : String → Nat → Nat) (td : List Match)
    (tp : String → Nat → Int) (cws : List Nat) (cw : Nat) (dlp : Bool) :
    (∀ (rows : List StandingsRow) (m : Match),
      matchEligible cw dlp m = false → processMatch tp cw dlp rows m = rows)
    ∧ (∀ r ∈ calculate_cup_standings hits_data td tp cws cw dlp,
        r.played = ((td.filter (matchEligible cw dlp)).map fun m =>
          (if m.team1 = r.team_name then 1 else 0)
            + (if m.team2 = r.team_name then 1 else 0)).sum)
    ∧ (∀ m ∈ td, m.week ∈ cws → m.week ≤ cw → matchEligible cw dlp m = false →
        ∃ wv ∈ prepare_cup_schedule td tp cws cw dlp, wv.week = m.week ∧
          (⟨m.team1, m.team2, "Chưa đấu"⟩ : MatchView) ∈ wv.week_matches)
    ∧ (∀ wv ∈ prepare_cup_schedule td tp cws cw dlp, wv.week ≤ cw) := by
  refine ⟨?_, ?_, ?_, ?_⟩
  · intro rows m h
    unfold processMatch
    rw [if_neg (by simp [h])]
  · intro r hr
    have hr2 : r ∈ rawStandings tp cw dlp td :=
      ((standings_perm hits_data td tp cws cw dlp).mem_iff).mp hr
    unfold rawStandings at hr2
    rw [foldl_processMatch_eq_map] at hr2
    obtain ⟨r0, hr0, rfl⟩ := List.mem_map.mp hr2
    obtain ⟨t, _, rfl⟩ := List.mem_map.mp hr0
    rw [foldMatches_played, foldMatches_team_name]
    simp [initRow]
  · intro m hm hcws hle hne
    have hwk : m.week ∈ cws.filter (fun w => decide (w ≤ cw)) :=
      List.mem_filter.mpr ⟨hcws, by simpa using hle⟩
    refine ⟨_, List.mem_map_of_mem _ hwk, rfl, ?_⟩
    have hmm : m ∈ td.filter (fun m2 => m2.week == m.week) :=
      List.mem_filter.mpr ⟨hm, by simp⟩
    have htext : matchResultText tp cw dlp m.week m = "Chưa đấu" := by
      unfold matchResultText
      have hcond : (m.week < cw || (m.week == cw && dlp)) = false := hne
      rw [hcond]
      simp
    have hview := List.mem_map_of_mem
      (fun m2 : Match => (⟨m2.team1, m2.team2,
        matchResultText tp cw dlp m.week m2⟩ : MatchView)) hmm
    simpa [htext] using hview
  · intro wv hwv
    obtain ⟨w, hw, rfl⟩ := List.mem_map.mp hwv
    simpa using (List.mem_filter.mp hw).2

theorem c3_amended_witness :
    processMatch (fun t _ => if t = "A" then (50 : Int) else 40) 2 false []
        ⟨2, "A", "B"⟩ = []
    ∧ (⟨"A", 1, 1, 0, 0, 3, 10⟩ : StandingsRow).played
        = (([⟨1, "A", "B"⟩, ⟨2, "A", "B"⟩].filter (matchEligible 2 false)).map
            fun m : Match => (if m.team1 = "A" then 1 else 0)
              + (if m.team2 = "A" then 1 else 0)).sum
    ∧ (∃ wv ∈ prepare_cup_schedule [⟨1, "A", "B"⟩, ⟨2, "A", "B"⟩]
          (fun t _ => if t = "A" then (50 : Int) else 40) [1, 2, 3, 4, 5, 6, 7]
          2 false,
        wv.week = 2 ∧ (⟨"A", "B", "Chưa đấu"⟩ : MatchView) ∈ wv.week_matches) := by
  have h := c3_amended (fun _ _ => 0) [⟨1, "A", "B"⟩, ⟨2, "A", "B"⟩]
    (fun t _ => if t = "A" then (50 : Int) else 40) [1, 2, 3, 4, 5, 6, 7] 2 false
  refine ⟨h.1 [] ⟨2, "A", "B"⟩ (by decide), ?_, ?_⟩
  · have h2 := h.2.1 ⟨"A", 1, 1, 0, 0, 3, 10⟩ (by decide)
    exact h2
  · exact h.2.2.1 ⟨2, "A", "B"⟩ (by decide) (by decide) (by decide) (by decide)

theorem rotateSlice_length {α : Type} (l : List α) (r : Nat) :
    (rotateSlice l r).length = l.length := by
  simp [rotateSlice]
  omega

theorem rotateSlice_getD {α : Type} (l : List α) (d : α) (r j : Nat)
    (hr : r ≤ l.length) (hj : j < l.length) :
    (rotateSlice l r).getD j d = l.getD ((j + r) % l.length) d := by
  have hrot : rotateSlice l r = l.rotate r :=
    (List.rotate_eq_drop_append_take hr).symm
  rw [hrot]
  have hlen : (l.rotate r).length = l.length := List.length_rotate l r
  have hj2 : j < (l.rotate r).length := by omega
  have h0 : 0 < l.length := by omega
  have hjm : (j + r) % l.length < l.length := Nat.mod_lt _ h0
  rw [List.getD_eq_getElem _ _ hj2, List.getD_eq_getElem _ _ hjm]
  have hget := List.get_rotate l r ⟨j, hj2⟩
  simpa [List.get_eq_getElem] using hget

theorem getD_mem {α : Type} (l : List α) (j : Nat) (d : α) (hj : j < l.length) :
    l.getD j d ∈ l := by
  rw [List.getD_eq_getElem _ _ hj]
  exact List.getElem_mem _

theorem getD_inj {α : Type} (l : List α) (d : α) (i j : Nat) (hnd : l.Nodup)
    (hi : i < l.length) (hj : j < l.length) (h : l.getD i d = l.getD j d) :
    i = j := by
  rw [List.getD_eq_getElem _ _ hi, List.getD_eq_getElem _ _ hj] at h
  exact (hnd.getElem_inj_iff).mp h

theorem slotMatch_zero (t0 : String) (D : List String) (r : Nat)
    (hm1 : 1 ≤ D.length) (hr : r < D.length) :
    slotMatch (t0 :: D) r 0
      = (t0, D.getD ((D.length - 1 + r) % D.length) "") := by
  unfold slotMatch
  rw [if_pos rfl]
  show (t0, (rotateSlice D r).getD ((rotateSlice D r).length - 1) "") = _
  rw [rotateSlice_length, rotateSlice_getD D "" r (D.length - 1) (by omega) (by omega)]

theorem slotMatch_pos (t0 : String) (D : List String) (r i : Nat)
    (hi0 : i ≠ 0) (hi : i ≤ D.length) (hm1 : 1 ≤ D.length) (hr : r < D.length) :
    slotMatch (t0 :: D) r i
      = (D.getD ((i - 1 + r) % D.length) "",
          D.getD ((D.length - (i + 1) + r) % D.length) "") := by
  unfold slotMatch
  rw [if_neg hi0]
  show ((rotateSlice D r).getD (i - 1) "",
    (rotateSlice D r).getD ((rotateSlice D r).length - (i + 1)) "") = _
  rw [rotateSlice_length,
    rotateSlice_getD D "" r (i - 1) (by omega) (by omega),
    rotateSlice_getD D "" r (D.length - (i + 1)) (by omega) (by omega)]

theorem finset_pair_eq_cases {a b c d : String}
    (h : ({a, b} : Finset String) = {c, d}) :
    (a = c ∧ b = d) ∨ (a = d ∧ b = c) := by
  have ha : a = c ∨ a = d := by
    have : a ∈ ({c, d} : Finset String) := by rw [← h]; simp
    simpa using this
  have hb : b = c ∨ b = d := by
    have : b ∈ ({c, d} : Finset String) := by rw [← h]; simp
    simpa using this
  have hc : c = a ∨ c = b := by
    have : c ∈ ({a, b} : Finset String) := by rw [h]; simp
    simpa using this
  have hd : d = a ∨ d = b := by
    have : d ∈ ({a, b} : Finset String) := by rw [h]; simp
    simpa using this
  rcases ha with rfl | rfl <;> rcases hb with rfl | rfl <;> tauto

theorem mod_add_right_cancel_lt (m a b r : Nat) (ha : a < m) (hb : b < m)
    (h : (a + r) % m = (b + r) % m) : a = b := by
  have h3 : a % m = b % m := Nat.ModEq.add_right_cancel' r h
  rw [Nat.mod_eq_of_lt ha, Nat.mod_eq_of_lt hb] at h3
  exact h3

theorem round_eq_of_sum_modeq (m r r2 : Nat) (hodd : m % 2 = 1) (hr : r < m)
    (hr2 : r2 < m) (h : Nat.ModEq m (m - 2 + 2 * r) (m - 2 + 2 * r2)) :
    r = r2 := by
  have hcop : Nat.gcd m 2 = 1 := by
    rw [Nat.gcd_comm, Nat.gcd_rec, hodd]
    decide
  have h2 : Nat.ModEq m (2 * r) (2 * r2) := Nat.ModEq.add_left_cancel' (m - 2) h
  have h3 : r % m = r2 % m := Nat.ModEq.cancel_left_of_coprime hcop h2
  rw [Nat.mod_eq_of_lt hr, Nat.mod_eq_of_lt hr2] at h3
  exact h3

theorem slot_entries (t0 : String) (D : List String) (r i : Nat)
    (hnd : (t0 :: D).Nodup) (hodd : D.length % 2 = 1)
    (hr : r < D.length) (hi : i < (D.length + 1) / 2) :
    (slotMatch (t0 :: D) r i).1 ∈ t0 :: D
    ∧ (slotMatch (t0 :: D) r i).2 ∈ t0 :: D
    ∧ (slotMatch (t0 :: D) r i).1 ≠ (slotMatch (t0 :: D) r i).2 := by
  have hm1 : 1 ≤ D.length := by omega
  obtain ⟨hnd0, hndD⟩ := List.nodup_cons.mp hnd
  by_cases h0 : i = 0
  · subst h0
    rw [slotMatch_zero t0 D r hm1 hr]
    dsimp only
    have hjm : (D.length - 1 + r) % D.length < D.length := Nat.mod_lt _ (by omega)
    refine ⟨List.mem_cons_self _ _, List.mem_cons_of_mem _ (getD_mem _ _ _ hjm), ?_⟩
    intro hc
    exact hnd0 (hc ▸ getD_mem _ _ _ hjm)
  · rw [slotMatch_pos t0 D r i h0 (by omega) hm1 hr]
    dsimp only
    have hx : (i - 1 + r) % D.length < D.length := Nat.mod_lt _ (by omega)
    have hy : (D.length - (i + 1) + r) % D.length < D.length := Nat.mod_lt _ (by omega)
    refine ⟨List.mem_cons_of_mem _ (getD_mem _ _ _ hx),
      List.mem_cons_of_mem _ (getD_mem _ _ _ hy), ?_⟩
    intro hc
    have hidx := getD_inj D "" _ _ hndD hx hy hc
    have : i - 1 = D.length - (i + 1) :=
      mod_add_right_cancel_lt D.length (i - 1) (D.length - (i + 1)) r
        (by omega) (by omega) hidx
    omega

theorem slot_inj (t0 : String) (D : List String) (hnd : (t0 :: D).Nodup)
    (hodd : D.length % 2 = 1) (r r2 i i2 : Nat)
    (hr : r < D.length) (hr2 : r2 < D.length)
    (hi : i < (D.length + 1) / 2) (hi2 : i2 < (D.length + 1) / 2)
    (heq : toPairSet (slotMatch (t0 :: D) r i)
      = toPairSet (slotMatch (t0 :: D) r2 i2)) :
    r = r2 ∧ i = i2 := by
  have hm1 : 1 ≤ D.length := by omega
  obtain ⟨hnd0, hndD⟩ := List.nodup_cons.mp hnd
  by_cases h0 : i = 0 <;> by_cases h02 : i2 = 0
  · subst h0; subst h02
    rw [slotMatch_zero t0 D r hm1 hr, slotMatch_zero t0 D r2 hm1 hr2] at heq
    unfold toPairSet at heq
    dsimp only at heq
    have hjm : (D.length - 1 + r) % D.length < D.length := Nat.mod_lt _ (by omega)
    have hjm2 : (D.length - 1 + r2) % D.length < D.length := Nat.mod_lt _ (by omega)
    rcases finset_pair_eq_cases heq with ⟨_, hDab⟩ | ⟨ht, _⟩
    · have hidx := getD_inj D "" _ _ hndD hjm hjm2 hDab
      refine ⟨mod_add_right_cancel_lt D.length r r2 (D.length - 1) hr hr2 ?_, rfl⟩
      rw [Nat.add_comm r (D.length - 1), Nat.add_comm r2 (D.length - 1)]
      exact hidx
    · exact absurd (ht ▸ getD_mem D _ "" hjm2) hnd0
  · subst h0
    exfalso
    rw [slotMatch_zero t0 D r hm1 hr,
      slotMatch_pos t0 D r2 i2 h02 (by omega) hm1 hr2] at heq
    unfold toPairSet at heq
    dsimp only at heq
    have hx2 : (i2 - 1 + r2) % D.length < D.length := Nat.mod_lt _ (by omega)
    have hy2 : (D.length - (i2 + 1) + r2) % D.length < D.length := Nat.mod_lt _ (by omega)
    have ht0 : t0 ∈ ({(D.getD ((i2 - 1 + r2) % D.length) ""),
        (D.getD ((D.length - (i2 + 1) + r2) % D.length) "")} : Finset String) := by
      rw [← heq]
      simp
    rcases Finset.mem_insert.mp ht0 with ht | ht
    · exact hnd0 (ht ▸ getD_mem D _ "" hx2)
    · rw [Finset.mem_singleton] at ht
      exact hnd0 (ht ▸ getD_mem D _ "" hy2)
  · subst h02
    exfalso
    rw [slotMatch_zero t0 D r2 hm1 hr2,
      slotMatch_pos t0 D r i h0 (by omega) hm1 hr] at heq
    unfold toPairSet at heq
    dsimp only at heq
    have hx1 : (i - 1 + r) % D.length < D.length := Nat.mod_lt _ (by omega)
    have hy1 : (D.length - (i + 1) + r) % D.length < D.length := Nat.mod_lt _ (by omega)
    have ht0 : t0 ∈ ({(D.getD ((i - 1 + r) % D.length) ""),
        (D.getD ((D.length - (i + 1) + r) % D.length) "")} : Finset String) := by
      rw [heq]
      simp
    rcases Finset.mem_insert.mp ht0 with ht | ht
    · exact hnd0 (ht ▸ getD_mem D _ "" hx1)
    · rw [Finset.mem_singleton] at ht
      exact hnd0 (ht ▸ getD_mem D _ "" hy1)
  · rw [slotMatch_pos t0 D r i h0 (by omega) hm1 hr,
      slotMatch_pos t0 D r2 i2 h02 (by omega) hm1 hr2] at heq
    unfold toPairSet at heq
    have hx1 : (i - 1 + r) % D.length < D.length := Nat.mod_lt _ (by omega)
    have hy1 : (D.length - (i + 1) + r) % D.length < D.length := Nat.mod_lt _ (by omega)
    have hx2 : (i2 - 1 + r2) % D.length < D.length := Nat.mod_lt _ (by omega)
    have hy2 : (D.length - (i2 + 1) + r2) % D.length < D.length := Nat.mod_lt _ (by omega)
    have hsum1 : Nat.ModEq D.length
        ((i - 1 + r) % D.length + (D.length - (i + 1) + r) % D.length)
        (D.length - 2 + 2 * r) := by
      have := Nat.ModEq.add (Nat.mod_modEq (i - 1 + r) D.length)
        (Nat.mod_modEq (D.length - (i + 1) + r) D.length)
      have harith : (i - 1 + r) + (D.length - (i + 1) + r)
          = D.length - 2 + 2 * r := by omega
      rw [harith] at this
      exact this
    have hsum2 : Nat.ModEq D.length
        ((i2 - 1 + r2) % D.length + (D.length - (i2 + 1) + r2) % D.length)
        (D.length - 2 + 2 * r2) := by
      have := Nat.ModEq.add (Nat.mod_modEq (i2 - 1 + r2) D.length)
        (Nat.mod_modEq (D.length - (i2 + 1) + r2) D.length)
      have harith : (i2 - 1 + r2) + (D.length - (i2 + 1) + r2)
          = D.length - 2 + 2 * r2 := by omega
      rw [harith] at this
      exact this
    have hsums_eq : (i - 1 + r) % D.length + (D.length - (i + 1) + r) % D.length
        = (i2 - 1 + r2) % D.length + (D.length - (i2 + 1) + r2) % D.length := by
      rcases finset_pair_eq_cases heq with ⟨h1, h2⟩ | ⟨h1, h2⟩
      · have e1 := getD_inj D "" _ _ hndD hx1 hx2 h1
        have e2 := getD_inj D "" _ _ hndD hy1 hy2 h2
        omega
      · have e1 := getD_inj D "" _ _ hndD hx1 hy2 h1
        have e2 := getD_inj D "" _ _ hndD hy1 hx2 h2
        omega
    have hrr : r = r2 := by
      refine round_eq_of_sum_modeq D.length r r2 hodd hr hr2 ?_
      exact (hsum1.symm.trans (by rw [hsums_eq]; exact hsum2))
    subst hrr
    refine ⟨rfl, ?_⟩
    rcases finset_pair_eq_cases heq with ⟨h1, _⟩ | ⟨h1, _⟩
    · have e1 := getD_inj D "" _ _ hndD hx1 hx2 h1
      have := mod_add_right_cancel_lt D.length (i - 1) (i2 - 1) r
        (by omega) (by omega) e1
      omega
    · have e1 := getD_inj D "" _ _ hndD hx1 hy2 h1
      have := mod_add_right_cancel_lt D.length (i - 1) (D.length - (i2 + 1)) r
        (by omega) (by omega) e1
      omega

theorem rawPairList_nodup (t0 : String) (D : List String)
    (hnd : (t0 :: D).Nodup) (hodd : D.length % 2 = 1) :
    (rawPairList t0 D).Nodup := by
  unfold rawPairList
  rw [List.nodup_flatten]
  constructor
  · intro l hl
    obtain ⟨r, hr, rfl⟩ := List.mem_map.mp hl
    rw [List.mem_range] at hr
    refine List.Nodup.map_on ?_ (List.nodup_range _)
    intro x hx y hy hxy
    rw [List.mem_range] at hx hy
    exact (slot_inj t0 D hnd hodd r r x y hr hr hx hy hxy).2
  · have hpw : (List.range D.length).Pairwise (· < ·) :=
      List.pairwise_lt_range D.length
    have hpw2 : (List.range D.length).Pairwise fun r r2 =>
        r < D.length ∧ r2 < D.length ∧ r < r2 := by
      refine List.Pairwise.imp_of_mem ?_ hpw
      intro r r2 hrm hr2m hlt
      rw [List.mem_range] at hrm hr2m
      exact ⟨hrm, hr2m, hlt⟩
    rw [List.pairwise_map]
    refine hpw2.imp ?_
    intro r r2 ⟨hrb, hr2b, hlt⟩
    intro s hs1 hs2
    obtain ⟨x, hx, rfl⟩ := List.mem_map.mp hs1
    obtain ⟨y, hy, heq2⟩ := List.mem_map.mp hs2
    rw [List.mem_range] at hx hy
    have := (slot_inj t0 D hnd hodd r r2 x y hrb hr2b hx hy heq2.symm).1
    omega

theorem rawPairList_length (t0 : String) (D : List String) :
    (rawPairList t0 D).length = D.length * ((D.length + 1) / 2) := by
  unfold rawPairList
  rw [List.length_flatten, List.map_map]
  have hcg : ∀ r ∈ List.range D.length,
      (List.length ∘ fun r => (List.range ((D.length + 1) / 2)).map fun i =>
        toPairSet (slotMatch (t0 :: D) r i)) r
      = (fun _ => (D.length + 1) / 2) r := by
    intro r _
    simp
  rw [List.map_congr_left hcg]
  simp [List.map_const', List.sum_replicate, List.length_range, smul_eq_mul]

theorem rawPairList_mem (t0 : String) (D : List String)
    (hnd : (t0 :: D).Nodup) (hodd : D.length % 2 = 1) :
    ∀ s ∈ rawPairList t0 D, s ∈ Finset.powersetCard 2 (t0 :: D).toFinset := by
  intro s hs
  unfold rawPairList at hs
  rw [List.mem_flatten] at hs
  obtain ⟨l, hl, hsl⟩ := hs
  obtain ⟨r, hr, rfl⟩ := List.mem_map.mp hl
  obtain ⟨i, hi, rfl⟩ := List.mem_map.mp hsl
  rw [List.mem_range] at hr hi
  obtain ⟨h1, h2, h3⟩ := slot_entries t0 D r i hnd hodd hr hi
  rw [Finset.mem_powersetCard]
  constructor
  · unfold toPairSet
    simp only [Finset.insert_subset_iff, Finset.singleton_subset_iff,
      List.mem_toFinset]
    exact ⟨h1, h2⟩
  · unfold toPairSet
    exact Finset.card_pair h3

theorem rawPairList_toFinset (t0 : String) (D : List String)
    (hnd : (t0 :: D).Nodup) (hodd : D.length % 2 = 1) :
    (rawPairList t0 D).toFinset = Finset.powersetCard 2 (t0 :: D).toFinset := by
  refine Finset.eq_of_subset_of_card_le ?_ ?_
  · intro s hs
    rw [List.mem_toFinset] at hs
    exact rawPairList_mem t0 D hnd hodd s hs
  · rw [Finset.card_powersetCard, List.toFinset_card_of_nodup hnd,
      List.toFinset_card_of_nodup (rawPairList_nodup t0 D hnd hodd),
      rawPairList_length, List.length_cons, Nat.choose_two_right]
    obtain ⟨k, hk⟩ : ∃ k, D.length = 2 * k + 1 := ⟨D.length / 2, by omega⟩
    rw [hk]
    have h1 : (2 * k + 1 + 1) * (2 * k + 1 + 1 - 1)
        = 2 * ((k + 1) * (2 * k + 1)) := by
      have h0 : 2 * k + 1 + 1 - 1 = 2 * k + 1 := by omega
      rw [h0]
      ring
    have h2 : (2 * k + 1 + 1) / 2 = k + 1 := by omega
    rw [h1, h2, Nat.mul_div_cancel_left _ (by norm_num : 0 < 2)]
    exact Nat.le_of_eq (Nat.mul_comm _ _)

theorem count_rawPairList (t0 : String) (D : List String)
    (hnd : (t0 :: D).Nodup) (hodd : D.length % 2 = 1) (a b : String)
    (ha : a ∈ t0 :: D) (hb : b ∈ t0 :: D) (hab : a ≠ b) :
    (rawPairList t0 D).count {a, b} = 1 := by
  have hmem : ({a, b} : Finset String) ∈ rawPairList t0 D := by
    rw [← List.mem_toFinset, rawPairList_toFinset t0 D hnd hodd,
      Finset.mem_powersetCard]
    constructor
    · simp only [Finset.insert_subset_iff, Finset.singleton_subset_iff,
        List.mem_toFinset]
      exact ⟨ha, hb⟩
    · exact Finset.card_pair hab
  have h1 : (rawPairList t0 D).count {a, b} ≤ 1 :=
    List.nodup_iff_count_le_one.mp (rawPairList_nodup t0 D hnd hodd) _
  have h2 : 0 < (rawPairList t0 D).count {a, b} :=
    List.count_pos_iff.mpr hmem
  omega

theorem pairEqB_imp_notBye (a b : String) (hBa : a ≠ "BYE") (hBb : b ≠ "BYE")
    (x : String × String)
    (h : ((x.1 == a && x.2 == b) || (x.1 == b && x.2 == a)) = true) :
    notBye x = true := by
  unfold notBye
  simp only [Bool.or_eq_true, Bool.and_eq_true, beq_iff_eq] at h
  rcases h with ⟨h1, h2⟩ | ⟨h1, h2⟩ <;> simp [h1, h2, bne_iff_ne, hBa, hBb]

theorem toPairSet_beq (a b : String) (hab : a ≠ b) (x : String × String) :
    (toPairSet x == ({a, b} : Finset String))
      = ((x.1 == a && x.2 == b) || (x.1 == b && x.2 == a)) := by
  have hiff : toPairSet x = {a, b} ↔
      ((x.1 = a ∧ x.2 = b) ∨ (x.1 = b ∧ x.2 = a)) := by
    constructor
    · intro h
      exact finset_pair_eq_cases h
    · rintro (⟨h1, h2⟩ | ⟨h1, h2⟩)
      · unfold toPairSet
        rw [h1, h2]
      · unfold toPairSet
        rw [h1, h2]
        exact Finset.pair_comm _ _
  rw [Bool.eq_iff_iff]
  simp [hiff]

theorem countP_schedule_eq_count (t0 : String) (D : List String) (a b : String)
    (hab : a ≠ b) (hBa : a ≠ "BYE") (hBb : b ≠ "BYE") :
    (((List.range D.length).map (buildRound (t0 :: D))).flatten).countP
        (fun p => (p.1 == a && p.2 == b) || (p.1 == b && p.2 == a))
      = (rawPairList t0 D).count {a, b} := by
  rw [List.count_eq_countP]
  unfold rawPairList buildRound buildRoundRaw
  rw [List.countP_flatten, List.countP_flatten, List.map_map, List.map_map]
  refine congrArg List.sum (List.map_congr_left ?_)
  intro r _
  show List.countP (fun p => (p.1 == a && p.2 == b) || (p.1 == b && p.2 == a))
      (List.filter notBye
        ((List.range ((t0 :: D).length / 2)).map (slotMatch (t0 :: D) r)))
    = List.countP (fun s => s == ({a, b} : Finset String))
        ((List.range ((D.length + 1) / 2)).map fun i =>
          toPairSet (slotMatch (t0 :: D) r i))
  rw [List.countP_filter]
  have hpt : (fun x => ((x.1 == a && x.2 == b) || (x.1 == b && x.2 == a))
      && notBye x)
      = fun x : String × String =>
        ((x.1 == a && x.2 == b) || (x.1 == b && x.2 == a)) := by
    funext x
    by_cases hx : ((x.1 == a && x.2 == b) || (x.1 == b && x.2 == a)) = true
    · rw [hx, pairEqB_imp_notBye a b hBa hBb x hx]
      rfl
    · rw [Bool.not_eq_true] at hx
      rw [hx]
      rfl
  rw [hpt, List.countP_map, List.countP_map]
  have hlen : (t0 :: D).length / 2 = (D.length + 1) / 2 := by
    rw [List.length_cons]
  rw [hlen]
  refine List.countP_congr ?_
  intro i _
  have hbeq := toPairSet_beq a b hab (slotMatch (t0 :: D) r i)
  constructor
  · intro h
    show (toPairSet (slotMatch (t0 :: D) r i) == ({a, b} : Finset String)) = true
    rw [hbeq]
    exact h
  · intro h
    have h2 : (toPairSet (slotMatch (t0 :: D) r i)
        == ({a, b} : Finset String)) = true := h
    rw [hbeq] at h2
    exact h2

theorem schedule_entries (t0 : String) (D : List String)
    (hnd : (t0 :: D).Nodup) (hodd : D.length % 2 = 1) :
    ∀ q ∈ ((List.range D.length).map (buildRound (t0 :: D))).flatten,
      q.1 ∈ t0 :: D ∧ q.2 ∈ t0 :: D ∧ q.1 ≠ q.2 ∧ notBye q = true := by
  intro q hq
  rw [List.mem_flatten] at hq
  obtain ⟨l, hl, hql⟩ := hq
  obtain ⟨r, hr, rfl⟩ := List.mem_map.mp hl
  rw [List.mem_range] at hr
  unfold buildRound at hql
  have hnb := (List.mem_filter.mp hql).2
  have hqr := (List.mem_filter.mp hql).1
  unfold buildRoundRaw at hqr
  obtain ⟨i, hi, rfl⟩ := List.mem_map.mp hqr
  rw [List.mem_range, List.length_cons] at hi
  obtain ⟨h1, h2, h3⟩ := slot_entries t0 D r i hnd hodd hr hi
  exact ⟨h1, h2, h3, hnb⟩

theorem count_nodup_one {l : List String} {x : String} (hnd : l.Nodup)
    (hx : x ∈ l) : l.count x = 1 := by
  have h1 : l.count x ≤ 1 := List.nodup_iff_count_le_one.mp hnd x
  have h2 : 0 < l.count x := List.count_pos_iff.mpr hx
  omega

theorem oppf_beq (a c : String) (hca : c ≠ a) (q : String × String) :
    ((if q.1 = a then some q.2 else if q.2 = a then some q.1 else none)
      == some c)
      = ((q.1 == a && q.2 == c) || (q.1 == c && q.2 == a)) := by
  by_cases h1 : q.1 = a <;> by_cases h2 : q.2 = a <;> simp_all

theorem padTeams_facts (teams : List String) (hnd : teams.Nodup)
    (hbye : "BYE" ∉ teams) (hlen : 2 ≤ teams.length) :
    (padTeams teams).Nodup ∧ (padTeams teams).length % 2 = 0
    ∧ 2 ≤ (padTeams teams).length ∧ teams ⊆ padTeams teams
    ∧ ∀ x ∈ padTeams teams, x ≠ "BYE" → x ∈ teams := by
  unfold padTeams
  split_ifs with h
  · refine ⟨?_, by simp; omega, by simp; omega,
      List.subset_append_left _ _, ?_⟩
    · simp [List.nodup_append, hnd, hbye]
    · intro x hx hxb
      rcases List.mem_append.mp hx with h1 | h1
      · exact h1
      · simp only [List.mem_singleton] at h1
        exact absurd h1 hxb
  · exact ⟨hnd, by omega, hlen, List.Subset.refl _, fun x hx _ => hx⟩

/-- C1: for every list of at least 2 distinct real team names, the schedule
returned by `generate_round_robin_schedule` (with the "BYE" placeholder
appended internally when the count is odd and BYE fixtures dropped)
contains every unordered pair of real teams in exactly one fixture across
the whole schedule, and each real team meets exactly N-1 distinct opponents
where N is the number of real teams. -/
theorem c1_round_robin (teams : List String) (hnd : teams.Nodup)
    (hbye : "BYE" ∉ teams) (hlen : 2 ≤ teams.length) :
    (∀ a ∈ teams, ∀ b ∈ teams, a ≠ b →
      pairCount (generate_round_robin_schedule teams) a b = 1)
    ∧ ∀ a ∈ teams,
        (opponentsOf (generate_round_robin_schedule teams) a).toFinset.card
          = teams.length - 1 := by
  obtain ⟨hTnd, hTev, hTlen, hTsub, hTreal⟩ := padTeams_facts teams hnd hbye hlen
  cases hT : padTeams teams with
  | nil =>
    rw [hT] at hTlen
    simp at hTlen
  | cons t0 D =>
  rw [hT] at hTnd hTev hTlen hTsub hTreal
  have hodd : D.length % 2 = 1 := by
    rw [List.length_cons] at hTev
    omega
  have hm1 : 1 ≤ D.length := by
    rw [List.length_cons] at hTlen
    omega
  have hsched : generate_round_robin_schedule teams
      = (List.range D.length).map (buildRound (t0 :: D)) := by
    unfold generate_round_robin_schedule generate_round_robin_schedule_full
    dsimp only
    rw [hT, List.length_cons]
    congr 1
  have hpair : ∀ a ∈ teams, ∀ b ∈ teams, a ≠ b →
      pairCount (generate_round_robin_schedule teams) a b = 1 := by
    intro a ha b hb hab
    rw [hsched]
    unfold pairCount
    rw [countP_schedule_eq_count t0 D a b hab
      (fun hc => hbye (hc ▸ ha)) (fun hc => hbye (hc ▸ hb))]
    exact count_rawPairList t0 D hTnd hodd a b (hTsub ha) (hTsub hb) hab
  refine ⟨hpair, ?_⟩
  intro a ha
  have hents := schedule_entries t0 D hTnd hodd
  have hperm : (opponentsOf (generate_round_robin_schedule teams) a).Perm
      (teams.erase a) := by
    rw [List.perm_iff_count]
    intro c
    have hcount : (opponentsOf (generate_round_robin_schedule teams) a).count c
        = (((List.range D.length).map (buildRound (t0 :: D))).flatten).countP
          (fun q => (if q.1 = a then some q.2 else
            if q.2 = a then some q.1 else none) == some c) := by
      unfold opponentsOf
      rw [hsched, List.count_filterMap]
    by_cases hca : c = a
    · subst hca
      have hL : (((List.range D.length).map (buildRound (t0 :: D))).flatten).countP
          (fun q => (if q.1 = c then some q.2 else
            if q.2 = c then some q.1 else none) == some c) = 0 := by
        rw [List.countP_eq_zero]
        intro q hq
        obtain ⟨_, _, hne, _⟩ := hents q hq
        by_cases h1 : q.1 = c <;> by_cases h2 : q.2 = c <;> simp_all
      rw [hcount, hL, List.count_erase_self,
        count_nodup_one hnd ha]
    · have hpt : ∀ q : String × String,
          ((if q.1 = a then some q.2 else if q.2 = a then some q.1 else none)
            == some c)
          = ((q.1 == a && q.2 == c) || (q.1 == c && q.2 == a)) :=
        oppf_beq a c hca
      rw [hcount, List.countP_congr fun q _ => by rw [hpt q]]
      by_cases hct : c ∈ teams
      · have h1 : (((List.range D.length).map (buildRound (t0 :: D))).flatten).countP
            (fun q => (q.1 == a && q.2 == c) || (q.1 == c && q.2 == a)) = 1 := by
          have := hpair a ha c hct (fun hc => hca hc.symm)
          rw [hsched] at this
          exact this
        rw [h1, List.count_erase_of_ne hca, count_nodup_one hnd hct]
      · have h0 : (((List.range D.length).map (buildRound (t0 :: D))).flatten).countP
            (fun q => (q.1 == a && q.2 == c) || (q.1 == c && q.2 == a)) = 0 := by
          rw [List.countP_eq_zero]
          intro q hq
          obtain ⟨hq1, hq2, _, hnb⟩ := hents q hq
          have hq1t : q.1 ≠ "BYE" → q.1 ∈ teams := hTreal q.1 hq1
          have hq2t : q.2 ≠ "BYE" → q.2 ∈ teams := hTreal q.2 hq2
          intro hcon
          simp only [Bool.or_eq_true, Bool.and_eq_true, beq_iff_eq] at hcon
          unfold notBye at hnb
          simp only [Bool.and_eq_true, bne_iff_ne] at hnb
          rcases hcon with ⟨hx, hy⟩ | ⟨hx, hy⟩
          · exact hct (hy ▸ hq2t hnb.2)
          · exact hct (hx ▸ hq1t hnb.1)
        rw [h0, List.count_erase_of_ne hca,
          List.count_eq_zero_of_not_mem hct]
  rw [List.toFinset_eq_of_perm _ _ hperm,
    List.toFinset_card_of_nodup (hnd.erase a), List.length_erase_of_mem ha]

theorem c1_round_robin_witness :
    pairCount (generate_round_robin_schedule ["A", "B", "C"]) "A" "B" = 1
    ∧ (opponentsOf (generate_round_robin_schedule ["A", "B", "C"])
        "A").toFinset.card = 2 := by
  have h := c1_round_robin ["A", "B", "C"] (by decide) (by decide) (by decide)
  exact ⟨h.1 "A" (by decide) "B" (by decide) (by decide),
    h.2 "A" (by decide)⟩
